import Mathlib

/-
Verification of the IrisODM document store (Model.js / Schema.js / Sync.js)
against its natural-language specification.

The JavaScript sources are shallowly embedded: JS runtime values become the
inductive type JSVal, objects become association lists (insertion order is
JS property order), the IndexedDB object store becomes a list of records,
and thrown JS exceptions become the Except monad.  Abstractions that the
host environment makes unavoidable are documented at each definition:
the host date parser and Date rendering (locale dependent in JS), the full
numeric string grammar (JS floats are out of scope; numbers are modelled as
integers), and object identity (a query operand object is never
reference-equal to a stored record, because stored records are structured
clones).
-/

set_option autoImplicit false

namespace Iris

/-- Model of a JavaScript runtime value.  vDate carries the milliseconds
since epoch, with none standing for an Invalid Date instance (a Date whose
time value is NaN).  vNaN is the number NaN.  Numbers are modelled as
integers; no claim exercises fractional values. -/
inductive JSVal : Type where
  | vUndefined : JSVal
  | vNull : JSVal
  | vBool (b : Bool) : JSVal
  | vNum (n : Int) : JSVal
  | vNaN : JSVal
  | vStr (s : String) : JSVal
  | vDate (t : Option Int) : JSVal
  | vArr (elems : List JSVal) : JSVal
  | vObj (fields : List (String × JSVal)) : JSVal

/-- A JS object, as an association list in property-insertion order. -/
abbrev Obj := List (String × JSVal)

namespace JSVal

/-- JS truthiness (ToBoolean). -/
def truthy : JSVal → Bool
  | vUndefined => false
  | vNull => false
  | vBool b => b
  | vNum n => n != 0
  | vNaN => false
  | vStr s => s != ""
  | vDate _ => true
  | vArr _ => true
  | vObj _ => true

/-- JS strict equality (===) restricted to the modelled values.  NaN is not
equal to itself.  Objects, arrays and Date instances compare by reference;
a stored record is a structured clone and a query operand is a fresh
literal, so in every comparison the source performs the two sides are
never the same reference, and the comparison is false. -/
def strictEqB : JSVal → JSVal → Bool
  | vUndefined, vUndefined => true
  | vNull, vNull => true
  | vBool a, vBool b => a == b
  | vNum a, vNum b => a == b
  | vStr a, vStr b => a == b
  | _, _ => false

/-- SameValueZero, the comparison used by Array.prototype.includes: like
strict equality, but NaN equals NaN. -/
def sameValueZero : JSVal → JSVal → Bool
  | vNaN, vNaN => true
  | a, b => strictEqB a b

end JSVal

open JSVal

/-- First-binding lookup, with the JS convention that a missing property
reads as undefined. -/
def objGet : Obj → String → JSVal
  | [], _ => .vUndefined
  | p :: rest, k => if p.1 == k then p.2 else objGet rest k

/-- Own-property test (hasOwnProperty) on a plain object. -/
def objHas : Obj → String → Bool
  | [], _ => false
  | p :: rest, k => p.1 == k || objHas rest k

/-- JS property assignment: an existing binding is overwritten in place, a
new key is appended (JS property insertion order). -/
def objSet : Obj → String → JSVal → Obj
  | [], k, v => [(k, v)]
  | (k1, v1) :: rest, k, v =>
    if k1 == k then (k, v) :: rest else (k1, v1) :: objSet rest k v

/-- The delete operator on a plain object: every binding of the key is
removed. -/
def objDel (o : Obj) (k : String) : Obj :=
  o.filter (fun p => p.1 != k)

/-- Spread merge {...a, ...b}: the bindings of b are assigned over a in
order, later keys winning. -/
def mergeSpread (a b : Obj) : Obj :=
  b.foldl (fun acc p => objSet acc p.1 p.2) a

/-- Decimal digit test on a character. -/
def isDigitCh (c : Char) : Bool :=
  48 <= c.toNat && c.toNat <= 57

/-- Numeric value of a digit character list, most significant first. -/
def digitsVal (cs : List Char) : Nat :=
  cs.foldl (fun n c => n * 10 + (c.toNat - 48)) 0

/-- Decimal digit parse of a whole string, rejecting the empty string. -/
def parseDigits (s : String) : Option Nat :=
  let cs := s.toList
  if cs.length > 0 && cs.all isDigitCh then some (digitsVal cs) else none

/-- The canonical decimal rendering of a natural number, written with a
fuel argument so it unfolds by structural recursion; the fuel of the
wrapper below always suffices. -/
def natDigitsAux : Nat → Nat → List Char
  | 0, _ => []
  | _ + 1, n =>
    if n < 10 then [Char.ofNat (48 + n)]
    else natDigitsAux n (n / 10) ++ [Char.ofNat (48 + n % 10)]

/-- The canonical decimal rendering of a natural number, used to test
whether a property key is a canonical array or string index. -/
def natDigits (n : Nat) : List Char :=
  natDigitsAux (n + 1) n

/-- Canonical-index parse of a property key: the numeric value when the
key is exactly the decimal rendering of a natural number. -/
def canonIndex (k : String) : Option Nat :=
  let cs := k.toList
  if cs.length > 0 && cs.all isDigitCh && natDigits (digitsVal cs) == cs then
    some (digitsVal cs)
  else none

/-- Gregorian leap-year test. -/
def isLeap (y : Int) : Bool :=
  (y % 4 == 0 && y % 100 != 0) || (y % 400 == 0)

/-- Number of days in a month of the proleptic Gregorian calendar. -/
def daysInMonth (y m : Int) : Int :=
  if m == 2 then (if isLeap y then 29 else 28)
  else if m == 4 || m == 6 || m == 9 || m == 11 then 30
  else 31

/-- Days from the civil epoch 1970-01-01 to the given calendar date
(standard civil-from-days inverse), used to turn a parsed ISO calendar
date into a millisecond timestamp. -/
def daysFromCivil (y m d : Int) : Int :=
  let y2 := if m <= 2 then y - 1 else y
  let era := (if y2 >= 0 then y2 else y2 - 399) / 400
  let yoe := y2 - era * 400
  let mp := (m + 9) % 12
  let doy := (153 * mp + 2) / 5 + d - 1
  let doe := yoe * 365 + yoe / 4 - yoe / 100 + doy
  era * 146097 + doe - 719468

/-- Model of the host date parser (Date.parse), restricted to ISO calendar
dates of the form YYYY-MM-DD with a validity check on month and day, which
is the portable core of the host grammar; other host-specific formats are
outside the model.  Returns the millisecond timestamp at UTC midnight. -/
def jsDateParse (s : String) : Option Int :=
  match s.toList.splitOn (Char.ofNat 45) with
  | [ys, ms, ds] =>
    if ys.length == 4 && ms.length == 2 && ds.length == 2
        && ys.all isDigitCh && ms.all isDigitCh && ds.all isDigitCh then
      let y := digitsVal ys
      let m := digitsVal ms
      let d := digitsVal ds
      if 1 <= m && m <= 12 && 1 <= d && Int.ofNat d <= daysInMonth y m then
        some (daysFromCivil y m d * 86400000)
      else none
    else none
  | _ => none

/-- Model of the numeric string grammar used by ToNumber: surrounding
whitespace is trimmed, the empty string is 0, an optionally signed run of
decimal digits is its integer value, and anything else is NaN (none).
Fractional, hexadecimal and exponent forms are outside the integer model. -/
def strToNumber (s : String) : Option Int :=
  let isWs : Char → Bool := fun c => c == ' ' || c.toNat == 9 || c.toNat == 10 || c.toNat == 13
  let t := ((s.toList.dropWhile isWs).reverse.dropWhile isWs).reverse
  let digits : List Char → Option Int := fun cs =>
    if cs.length > 0 && cs.all isDigitCh then some (Int.ofNat (digitsVal cs)) else none
  match t with
  | [] => some 0
  | c :: rest =>
    if c == Char.ofNat 45 then (digits rest).map (fun n => -n)
    else if c == '+' then digits rest
    else digits t

mutual

/-- Model of JS ToString (the String(...) coercion).  The rendering of a
valid Date instance is host- and locale-dependent in JS, so it is
abstracted by an injective placeholder rendering; an Invalid Date renders
as the host string.  Arrays join their elements with commas, with null and
undefined rendering as empty, as in Array.prototype.toString. -/
def jsToString : JSVal → String
  | .vUndefined => "undefined"
  | .vNull => "null"
  | .vBool b => if b then "true" else "false"
  | .vNum n => toString n
  | .vNaN => "NaN"
  | .vStr s => s
  | .vDate (some t) => "[Date " ++ toString t ++ "]"
  | .vDate none => "Invalid Date"
  | .vArr xs => String.intercalate "," (jsToStringElems xs)
  | .vObj _ => "[object Object]"

/-- Renders the elements of an array for Array.prototype.toString. -/
def jsToStringElems : List JSVal → List String
  | [] => []
  | x :: xs =>
    (match x with
     | .vNull => ""
     | .vUndefined => ""
     | y => jsToString y) :: jsToStringElems xs

end

/-- Model of JS ToNumber, with none standing for NaN.  ToPrimitive on
arrays and plain objects is abstracted as NaN; no operation the claims
exercise compares a container numerically. -/
def jsToNumber : JSVal → Option Int
  | .vUndefined => none
  | .vNull => some 0
  | .vBool b => some (if b then 1 else 0)
  | .vNum n => some n
  | .vNaN => none
  | .vStr s => strToNumber s
  | .vDate t => t
  | .vArr _ => none
  | .vObj _ => none

/-- The abstract relational comparison behind the < operator: two strings
compare lexicographically, otherwise both sides go through ToNumber and a
NaN on either side makes the comparison false. -/
def jsLtB (a b : JSVal) : Bool :=
  match a, b with
  | .vStr x, .vStr y => x < y
  | _, _ =>
    match jsToNumber a, jsToNumber b with
    | some x, some y => x < y
    | _, _ => false

/-- The relational comparison behind <=: false whenever a side is NaN. -/
def jsLeB (a b : JSVal) : Bool :=
  match a, b with
  | .vStr x, .vStr y => x <= y
  | _, _ =>
    match jsToNumber a, jsToNumber b with
    | some x, some y => x <= y
    | _, _ => false

/-- Own enumerable entries of a value, as produced by Object.entries and
object spread: objects give their properties, arrays and strings their
indexed elements, everything else (including Date instances) none. -/
def jsEntries : JSVal → List (String × JSVal)
  | .vObj fs => fs
  | .vArr xs => (xs.enum).map (fun p => (toString p.1, p.2))
  | .vStr s => (s.toList.enum).map (fun p => (toString p.1, .vStr (String.singleton p.2)))
  | _ => []

/-- Property read on a general value: objects by lookup, strings and
arrays expose length and their canonical indices, all other receivers
read as undefined.  Reads from null and undefined receivers would throw
in JS; no call site of the embedding reaches them. -/
def jsGetProp (v : JSVal) (k : String) : JSVal :=
  match v with
  | .vObj fs => objGet fs k
  | .vStr s =>
    if k == "length" then .vNum s.toList.length
    else match canonIndex k with
      | some i =>
        match s.toList.get? i with
        | some c => .vStr (String.singleton c)
        | none => .vUndefined
      | none => .vUndefined
  | .vArr xs =>
    if k == "length" then .vNum xs.length
    else match canonIndex k with
      | some i => (xs.get? i).getD .vUndefined
      | none => .vUndefined
  | _ => .vUndefined

/-- Own-property test (hasOwnProperty) on a general value. -/
def jsHasProp (v : JSVal) (k : String) : Bool :=
  match v with
  | .vObj fs => objHas fs k
  | .vStr s =>
    k == "length" ||
      (match canonIndex k with
       | some i => i < s.toList.length
       | none => false)
  | .vArr xs =>
    k == "length" ||
      (match canonIndex k with
       | some i => i < xs.length
       | none => false)
  | _ => false

/-- One accumulated validation violation.  The source pushes formatted
strings; the five push sites map onto the five constructors, with the
message formatting abstracted away. -/
inductive VErr : Type where
  | required (field : String) : VErr
  | unique (field : String) : VErr
  | typeMismatch (field : String) : VErr
  | validateFailed (field : String) : VErr
  | validateThrew (field : String) (msg : String) : VErr
  deriving DecidableEq

/-- Errors a storage operation can surface: thrown JS exceptions
(TypeError, the IndexedDB DataError and ConstraintError), the aggregated
validation failure (the list of accumulated violations of one call), the
missing-identifier throw of update, and the not-found rejection. -/
inductive JSErr : Type where
  | typeError (msg : String) : JSErr
  | dataError : JSErr
  | constraintError : JSErr
  | validation (errs : List VErr) : JSErr
  | missingId : JSErr
  | notFound : JSErr
  deriving DecidableEq

/-- The closed set of type tokens a Schema field can declare (the source
uses the String, Number, Boolean, Date, Array and Object constructors as
reflective tokens). -/
inductive FieldType : Type where
  | tString | tNumber | tBoolean | tDate | tArray | tObject
  deriving DecidableEq

/-- One field of a Schema definition: the declared type plus the
required, unique and custom-validate constraints.  The validate predicate
may signal an exception through Except, as the source tolerates throwing
validators; the shorthand field form (a bare type token) behaves exactly
as a definition with only a type, which is how it is modelled. -/
structure FieldDef : Type where
  type : FieldType
  required : Bool := false
  unique : Bool := false
  validate : Option (JSVal → Except String Bool) := none

/-- A Schema definition object: field name to field definition, in
property order. -/
abbrev SchemaDef := List (String × FieldDef)

/-- Property lookup in a Schema definition. -/
def schemaLookup : SchemaDef → String → Option FieldDef
  | [], _ => none
  | p :: rest, f => if p.1 == f then some p.2 else schemaLookup rest f

/-- The declared field names of a Schema definition. -/
def schemaFields (defn : SchemaDef) : List String :=
  defn.map Prod.fst

/-- Undefined test, the value-level form of a strict comparison against
undefined. -/
def isUndefinedV : JSVal → Bool
  | .vUndefined => true
  | _ => false

/-- Null test, the value-level form of a strict comparison against
null. -/
def isNull : JSVal → Bool
  | .vNull => true
  | _ => false

/-- Embedding of Model._castValue: String, Number and Boolean use the
native coercions; Date keeps a valid Date instance, converts a parseable
string and sends every other value (including an Invalid Date instance,
whose time value is NaN) to null with a console warning; the Array and
Object cases fall through the switch and return the value unchanged. -/
def castValue (value : JSVal) (t : FieldType) : JSVal :=
  match t with
  | .tString => .vStr (jsToString value)
  | .tNumber =>
    match jsToNumber value with
    | some n => .vNum n
    | none => .vNaN
  | .tBoolean => .vBool value.truthy
  | .tDate =>
    let converted : JSVal :=
      match value with
      | .vDate t? => .vDate t?
      | .vStr s =>
        match jsDateParse s with
        | some ms => .vDate (some ms)
        | none => .vNull
      | _ => .vNull
    match converted with
    | .vDate (some ms) => .vDate (some ms)
    | _ => .vNull
  | .tArray => value
  | .tObject => value

/-- The entry loop of Model._prepare with its accumulator made explicit:
entries whose key is declared are cast and assigned, all other entries
are dropped. -/
def prepareGo (defn : SchemaDef) : List (String × JSVal) → Obj → Obj
  | [], acc => acc
  | (k, v) :: rest, acc =>
    match schemaLookup defn k with
    | some fd => prepareGo defn rest (objSet acc k (castValue v fd.type))
    | none => prepareGo defn rest acc

/-- Embedding of Model._prepare: only declared fields survive, each cast
to its declared type. -/
def prepare (defn : SchemaDef) (data : List (String × JSVal)) : Obj :=
  prepareGo defn data []

/-- Prepare applied to a general value, entering through Object.entries as
the source loop does. -/
def prepareV (defn : SchemaDef) (data : JSVal) : Obj :=
  prepare defn (jsEntries data)

/-- Embedding of Model._isValidType: a typeof or instanceof check per
declared type, with Number excluding NaN, Date requiring a valid (non-NaN)
instant, and Object accepting any non-null value of object type (which
includes arrays and Date instances). -/
def isValidType (value : JSVal) (t : FieldType) : Bool :=
  match t with
  | .tString => match value with | .vStr _ => true | _ => false
  | .tNumber => match value with | .vNum _ => true | _ => false
  | .tBoolean => match value with | .vBool _ => true | _ => false
  | .tDate => match value with | .vDate (some _) => true | _ => false
  | .tArray => match value with | .vArr _ => true | _ => false
  | .tObject =>
    match value with
    | .vObj _ => true | .vArr _ => true | .vDate _ => true
    | _ => false

/-- Embedding of Schema.toDocument: the input is copied and every
declared field that reads as undefined (absent, or present holding
undefined) is filled with null, in declaration order. -/
def toDocument (defn : SchemaDef) (data : Obj) : Obj :=
  defn.foldl
    (fun doc p =>
      if isUndefinedV (objGet doc p.1) then objSet doc p.1 .vNull else doc)
    data

/-- Embedding of Schema.toObject: the input is copied and every declared
field holding null is set back to undefined (the key stays present, as JS
assignment of undefined keeps the property). -/
def toObject (defn : SchemaDef) (doc : Obj) : Obj :=
  defn.foldl
    (fun o p =>
      if isNull (objGet o p.1) then objSet o p.1 .vUndefined else o)
    doc

/-- Overwrites the first binding of a key in a Schema definition, the way
property assignment on the definition object does. -/
def schemaSet : SchemaDef → String → FieldDef → SchemaDef
  | [], k, fd => [(k, fd)]
  | (k1, fd1) :: rest, k, fd =>
    if k1 == k then (k, fd) :: rest else (k1, fd1) :: schemaSet rest k fd

/-- Embedding of the primary-field normalization in the Model constructor
(identical in both Model.js variants): an absent primary definition is
added as a unique String; otherwise, if its declared type is not String,
only the type is rewritten to String (with a console warning); otherwise,
if it lacks the unique flag, the flag is set.  The three branches are an
if / else-if / else-if chain, so at most one of them runs. -/
def normalizePrimary (primary : String) (defn : SchemaDef) : SchemaDef :=
  match schemaLookup defn primary with
  | none => defn ++ [(primary, { type := .tString, unique := true })]
  | some fd =>
    if fd.type != .tString then
      schemaSet defn primary { fd with type := .tString }
    else if !fd.unique then
      schemaSet defn primary { fd with unique := true }
    else defn

/-- The test `value && typeof value === "object"` that sends a query
clause into the operator branch of _matchesQuery: true for plain objects,
arrays and Date instances, false for null and every primitive. -/
def objectLike : JSVal → Bool
  | .vObj _ => true
  | .vArr _ => true
  | .vDate _ => true
  | _ => false

/-- Substring test of String.prototype.includes: the empty needle always
matches, otherwise the needle must occur in the haystack. -/
def strIncludes (hay needle : String) : Bool :=
  needle == "" || (hay.splitOn needle).length > 1

/-- Embedding of `operand.includes(item[key])`: an array operand uses
SameValueZero membership, a string operand coerces the argument and does a
substring test, and any other operand has no includes method, so the call
throws a TypeError. -/
def jsIncludes (operand target : JSVal) : Except JSErr Bool :=
  match operand with
  | .vArr xs => .ok (xs.any (fun x => sameValueZero x target))
  | .vStr s => .ok (strIncludes s (jsToString target))
  | _ => .error (.typeError "operand.includes is not a function")

/-- One operator entry of _matchesQuery's inner switch, comparing the
stored field value against the operand.  An operator key outside the
supported set falls to the default branch and yields false. -/
def evalOp (itemVal : JSVal) (op : String) (operand : JSVal) : Except JSErr Bool :=
  if op == "$gt" then .ok (jsLtB operand itemVal)
  else if op == "$gte" then .ok (jsLeB operand itemVal)
  else if op == "$lt" then .ok (jsLtB itemVal operand)
  else if op == "$lte" then .ok (jsLeB itemVal operand)
  else if op == "$ne" then .ok (!strictEqB itemVal operand)
  else if op == "$in" then jsIncludes operand itemVal
  else if op == "$nin" then (jsIncludes operand itemVal).map (fun b => !b)
  else .ok false

/-- Short-circuiting Array.prototype.every over a callback that may
throw: evaluation stops at the first false or the first exception. -/
def everyE {α : Type} (f : α → Except JSErr Bool) : List α → Except JSErr Bool
  | [] => .ok true
  | x :: xs =>
    match f x with
    | .error e => .error e
    | .ok false => .ok false
    | .ok true => everyE f xs

/-- Embedding of Model._matchesQuery: every clause of the query object
must hold, a clause whose value is object-like runs every operator entry
of it, and any other clause value is a strict-equality test against the
stored field. -/
def matchesQuery (item : Obj) (query : JSVal) : Except JSErr Bool :=
  everyE
    (fun p =>
      if objectLike p.2 then
        everyE (fun q => evalOp (objGet item p.1) q.1 q.2) (jsEntries p.2)
      else
        .ok (strictEqB (objGet item p.1) p.2))
    (jsEntries query)

/-- Total rendering of one operator entry used by the specification-side
predicate: identical to evalOp on every entry that does not throw, and
false on a throwing entry. -/
def opHolds (itemVal : JSVal) (op : String) (operand : JSVal) : Bool :=
  match evalOp itemVal op operand with
  | .ok b => b
  | .error _ => false

/-- Specification-side reading of the claim: a clause whose value is an
operator object holds when every one of its operator entries holds (an
unrecognized operator key holds for no record), and a literal clause is an
exact-equality test. -/
def clauseHolds (item : Obj) (k : String) (v : JSVal) : Bool :=
  if objectLike v then
    (jsEntries v).all (fun q => opHolds (objGet item k) q.1 q.2)
  else
    strictEqB (objGet item k) v

/-- Specification-side reading of query matching: implicit AND over all
field clauses, with no OR or NOT composition. -/
def specMatches (item : Obj) (query : List (String × JSVal)) : Bool :=
  query.all (fun p => clauseHolds item p.1 p.2)

/-- A query is well-formed when every $in and $nin operand is an array or
a string, the operand shapes whose includes call does not throw. -/
def wfQuery (query : List (String × JSVal)) : Bool :=
  query.all (fun p =>
    !objectLike p.2 ||
      (jsEntries p.2).all (fun q =>
        (q.1 != "$in" && q.1 != "$nin") ||
          (match q.2 with | .vArr _ => true | .vStr _ => true | _ => false)))

/-- Field projection of find and findById: for each requested field name
present on the record, copy it over. -/
def projectFields (r : Obj) (fields : JSVal) : Obj :=
  (jsEntries fields).foldl
    (fun acc p =>
      let f := jsToString p.2
      if objHas r f then objSet acc f (objGet r f) else acc)
    []

/-- The cursor loop of Model.find over the records of the active
collection, in store order: with no query every record is pushed, with a
query only matching records are pushed, and a truthy fields list projects
the pushed value (the match always runs against the full record). -/
def findScan (query fields : JSVal) : List Obj → Except JSErr (List Obj)
  | [] => .ok []
  | r :: rs =>
    let valueToPush := if fields.truthy then projectFields r fields else r
    if !query.truthy then
      (findScan query fields rs).map (fun t => valueToPush :: t)
    else
      match matchesQuery r query with
      | .error e => .error e
      | .ok true => (findScan query fields rs).map (fun t => valueToPush :: t)
      | .ok false => findScan query fields rs

/-- Embedding of Model.find of the current Model.js: the single options
argument is destructured as query and fields, each defaulting to null
when the property is absent or undefined. -/
def findRecords (store : List Obj) (arg : JSVal) : Except JSErr (List Obj) :=
  let query := match jsGetProp arg "query" with | .vUndefined => .vNull | v => v
  let fields := match jsGetProp arg "fields" with | .vUndefined => .vNull | v => v
  findScan query fields store

/-- The per-model configuration the storage operations read: the primary
key field and the schema definition of the active collection. -/
structure ModelCtx : Type where
  primary : String
  defn : SchemaDef

/-- A valid IndexedDB key among the modelled values: a string, a number
other than NaN, or a valid Date.  Array keys do not arise in this store
(the key path is the primary field, which the engine coerces to String),
so they are left out of the valid set. -/
def validKey : JSVal → Bool
  | .vStr _ => true
  | .vNum _ => true
  | .vDate (some _) => true
  | _ => false

/-- IndexedDB key equality on the modelled keys: same-type value
comparison. -/
def keyEq : JSVal → JSVal → Bool
  | .vStr a, .vStr b => a == b
  | .vNum a, .vNum b => a == b
  | .vDate (some a), .vDate (some b) => a == b
  | _, _ => false

/-- Point lookup of the record whose primary key equals the requested
key. -/
def storeFind (pk : String) (store : List Obj) (id : JSVal) : Option Obj :=
  store.find? (fun r => keyEq (objGet r pk) id)

/-- IndexedDB get: throws DataError on an invalid key, otherwise yields
the record with that key, or none. -/
def storeGet (pk : String) (store : List Obj) (id : JSVal) : Except JSErr (Option Obj) :=
  if validKey id then .ok (storeFind pk store id) else .error .dataError

/-- IndexedDB add: the record must yield a valid key along the key path,
and the key must not already be present (ConstraintError otherwise).  The
record list stands for the store contents; the key ordering the substrate
maintains is abstracted as insertion order. -/
def storeAdd (pk : String) (store : List Obj) (r : Obj) : Except JSErr (List Obj) :=
  let k := objGet r pk
  if validKey k then
    if store.any (fun r1 => keyEq (objGet r1 pk) k) then .error .constraintError
    else .ok (store ++ [r])
  else .error .dataError

/-- IndexedDB put: replaces the record holding the same key in place, or
appends a new record. -/
def storePut (pk : String) (store : List Obj) (r : Obj) : Except JSErr (List Obj) :=
  let k := objGet r pk
  if validKey k then
    if store.any (fun r1 => keyEq (objGet r1 pk) k) then
      .ok (store.map (fun r1 => if keyEq (objGet r1 pk) k then r else r1))
    else .ok (store ++ [r])
  else .error .dataError

/-- IndexedDB delete: idempotent removal by key; an invalid key still
throws DataError. -/
def storeDelete (pk : String) (store : List Obj) (id : JSVal) : Except JSErr (List Obj) :=
  if validKey id then .ok (store.filter (fun r => !keyEq (objGet r pk) id))
  else .error .dataError

/-- Property assignment on a general value: objects take the binding,
while primitive, null and undefined receivers throw in strict mode (the
sources are ES modules). -/
def jsSetProp (v : JSVal) (k : String) (x : JSVal) : Except JSErr JSVal :=
  match v with
  | .vObj fs => .ok (.vObj (objSet fs k x))
  | _ => .error (.typeError "cannot create property on primitive")

/-- The delete operator on a general value: a plain object loses the
binding, deleting an absent property of a primitive receiver is a no-op
returning true, and a null or undefined receiver throws a TypeError. -/
def jsDelProp (v : JSVal) (k : String) : Except JSErr JSVal :=
  match v with
  | .vObj fs => .ok (.vObj (objDel fs k))
  | .vUndefined => .error (.typeError "cannot convert undefined to object")
  | .vNull => .error (.typeError "cannot convert null to object")
  | x => .ok x

/-- Embedding of Model.validatePrimaryKey: e when the primary value is
falsy (missing, empty, zero), w with a console warning when its length
property is not 24, s otherwise. -/
def validatePrimaryKey (ctx : ModelCtx) (data : JSVal) : String :=
  if !(jsGetProp data ctx.primary).truthy then "e"
  else
    match jsGetProp (jsGetProp data ctx.primary) "length" with
    | .vNum n => if n == 24 then "s" else "w"
    | _ => "w"

/-- The head of Model._validateData: on create a missing or empty primary
key is synthesized from the identifier generator (its output is passed in
as gen); on update a missing id parameter is a hard MissingIdentifier
error. -/
def resolvePk (ctx : ModelCtx) (gen : String) (data : JSVal) (operation : String)
    (id : JSVal) : Except JSErr JSVal :=
  if operation == "create" && validatePrimaryKey ctx data == "e" then
    jsSetProp data ctx.primary (.vStr gen)
  else if operation == "update" && !id.truthy then
    .error .missingId
  else .ok data

/-- The query object the uniqueness probe passes to find. -/
def uniqueProbeArg (f : String) (v : JSVal) : JSVal :=
  .vObj [("query", .vObj [(f, v)])]

/-- The violations one declared field contributes in the loop of
Model._validateData: required-but-absent; unique-and-not-update probing
the existing records for a value collision; a present non-null value of
the wrong type; and a failing or throwing custom validator. -/
def fieldErrors (store : List Obj) (data : JSVal)
    (operation : String) (f : String) (fd : FieldDef) : Except JSErr (List VErr) := do
  let e1 : List VErr :=
    if fd.required && !jsHasProp data f then [.required f] else []
  let e2 : List VErr ←
    if fd.unique && operation != "update" then do
      let existing ← findRecords store (uniqueProbeArg f (jsGetProp data f))
      pure (if existing.length > 0 then [.unique f] else [])
    else pure []
  let e3 : List VErr :=
    if jsHasProp data f && !(match jsGetProp data f with | .vNull => true | _ => false) then
      (if isValidType (jsGetProp data f) fd.type then [] else [.typeMismatch f])
    else []
  let e4 : List VErr :=
    match fd.validate with
    | some vf =>
      if jsHasProp data f then
        match vf (jsGetProp data f) with
        | .ok true => []
        | .ok false => [.validateFailed f]
        | .error m => [.validateThrew f m]
      else []
    | none => []
  pure (e1 ++ e2 ++ e3 ++ e4)

/-- The loop of _validateData over the declared fields, concatenating the
violations of each field in declaration order. -/
def validationLoop (store : List Obj) (data : JSVal) (operation : String) :
    SchemaDef → Except JSErr (List VErr)
  | [] => .ok []
  | (f, fd) :: rest => do
    let es ← fieldErrors store data operation f fd
    let rest1 ← validationLoop store data operation rest
    pure (es ++ rest1)

/-- The accumulated violations of one _validateData call, in declaration
order (errors are aggregated, not fail-fast). -/
def validationErrorList (ctx : ModelCtx) (store : List Obj) (data : JSVal)
    (operation : String) : Except JSErr (List VErr) :=
  validationLoop store data operation ctx.defn

/-- Embedding of Model._validateData: resolve or require the primary key,
accumulate the violations of every declared field, and throw the
aggregate when any were found, returning the (possibly augmented) data
otherwise. -/
def validateData (ctx : ModelCtx) (gen : String) (store : List Obj) (data : JSVal)
    (operation : String) (id : JSVal) : Except JSErr JSVal := do
  let d ← resolvePk ctx gen data operation id
  let errs ← validationErrorList ctx store d operation
  if errs.isEmpty then pure d else .error (.validation errs)

/-- Embedding of Model.create with default options: the raw data is
validated (synthesizing the primary key when absent), the prepared (cast,
schema-filtered) record is added to the active collection, and the
original data object, carrying the generated primary key, is returned. -/
def create (ctx : ModelCtx) (gen : String) (store : List Obj)
    (data : JSVal) : Except JSErr (JSVal × List Obj) := do
  let d ← validateData ctx gen store data "create" .vUndefined
  let store1 ← storeAdd ctx.primary store (prepareV ctx.defn d)
  pure (d, store1)

/-- Embedding of Model.update(data, id): the id falls back to the primary
field of the patch, the primary field is stripped from the patch, the
patch is re-validated, the record is fetched (rejecting with the
not-found error when absent), the prepared patch is spread over the
fetched record, and the merged record is written back and returned. -/
def update (ctx : ModelCtx) (gen : String) (store : List Obj)
    (data : JSVal) (id : JSVal) : Except JSErr (JSVal × List Obj) := do
  let id := if id.truthy then id else jsGetProp data ctx.primary
  let data ← jsDelProp data ctx.primary
  let d ← validateData ctx gen store data "update" id
  match ← storeGet ctx.primary store id with
  | none => .error .notFound
  | some item =>
    let updatedItem := mergeSpread item (prepareV ctx.defn d)
    let store1 ← storePut ctx.primary store updatedItem
    pure (.vObj updatedItem, store1)

/-- Embedding of Model.delete of the current Model.js: the key is removed
if present and the id is returned either way (the underlying delete
request succeeds for a missing key). -/
def deleteOp (ctx : ModelCtx) (store : List Obj) (id : JSVal) :
    Except JSErr (JSVal × List Obj) := do
  let store1 ← storeDelete ctx.primary store id
  pure (id, store1)

/-- The per-manager configuration of SyncManager, at its constructor
defaults: the id field and the server-id field both default to the
primary field _id. -/
structure SyncCtx : Type where
  idField : String := "_id"
  syncStatusField : String := "_syncStatus"
  serverIdField : String := "_id"
  lastSyncField : String := "_lastSync"
  conflictResolution : String := "server-wins"

/-- The sync bookkeeping fields SyncManager.prepareSyncSchema assigns
onto the model schema (the default annotation on the status field is dead
in the engine, which never applies defaults, so it is not modelled); the
server-id field is added only when the schema does not already declare
it. -/
def syncFieldsList (s : SyncCtx) (defn : SchemaDef) : List (String × FieldDef) :=
  [(s.syncStatusField, { type := .tString }),
   (s.lastSyncField, { type := .tDate }),
   ("_syncErrors", { type := .tArray }),
   ("_localUpdatedAt", { type := .tDate })] ++
  (if (schemaLookup defn s.serverIdField).isSome then []
   else [(s.serverIdField, { type := .tString, unique := true })])

/-- Embedding of SyncManager.prepareSyncSchema: Object.assign of the sync
fields over the schema definition. -/
def prepareSyncSchema (s : SyncCtx) (defn : SchemaDef) : SchemaDef :=
  (syncFieldsList s defn).foldl (fun d p => schemaSet d p.1 p.2) defn

/-- The key selector of Model.sort: a field name and the comparison mode
read from keyField.type. -/
structure KeyField : Type where
  name : String
  ktype : String

/-- Number(new Date(v)): the timestamp the date-mode comparator extracts
from a field value, with none standing for NaN (an unparseable or missing
value). -/
def toDateNum : JSVal → Option Int
  | .vDate t => t
  | .vStr s => jsDateParse s
  | .vNum n => some n
  | .vBool b => some (if b then 1 else 0)
  | .vNull => some 0
  | _ => none

/-- The comparator of Model.sort: date mode parses both sides as dates,
otherwise both sides are subtracted numerically; a NaN result is treated
as equal ordering, as the host sort treats a non-comparable pair. -/
def sortCompare (kf : KeyField) (order : String) (a b : Obj) : Int :=
  let pair : Option Int × Option Int :=
    if kf.ktype == "date" then
      (toDateNum (objGet a kf.name), toDateNum (objGet b kf.name))
    else
      (jsToNumber (objGet a kf.name), jsToNumber (objGet b kf.name))
  match pair with
  | (some x, some y) => if order == "asc" then x - y else y - x
  | _ => 0

/-- Stable insertion of one record into a sorted prefix: the record stays
before every element it does not strictly follow, preserving store order
among ties (the host sort is stable). -/
def insertSorted (c : Obj → Obj → Int) (x : Obj) : List Obj → List Obj
  | [] => [x]
  | y :: ys => if c y x < 0 then y :: insertSorted c x ys else x :: y :: ys

/-- Embedding of Model.sort as a stable comparison sort over a fetched
record list. -/
def sortRecords (c : Obj → Obj → Int) : List Obj → List Obj
  | [] => []
  | x :: xs => insertSorted c x (sortRecords c xs)

/-- Embedding of SyncManager.getLastSyncTimestamp: fetch with the status
filter passed as the whole options object, sort descending by the
last-sync field in date mode, truncate to one record, and return its
last-sync value, or null when nothing came back. -/
def getLastSyncTimestamp (s : SyncCtx) (store : List Obj) : Except JSErr JSVal := do
  let found ← findRecords store (.vObj [(s.syncStatusField, .vStr "synced")])
  let sorted := sortRecords (sortCompare ⟨s.lastSyncField, "date"⟩ "desc") found
  let limited := sorted.take 1
  pure (match limited with
    | [] => .vNull
    | r :: _ => objGet r s.lastSyncField)

/-- The two bookkeeping properties the watchChanges wrappers append to
the caller's data: sync status modified and the local-update timestamp. -/
def syncStamp (s : SyncCtx) (now : Int) : Obj :=
  [(s.syncStatusField, .vStr "modified"), ("_localUpdatedAt", .vDate (some now))]

/-- Object-literal spread {...v, extra}: the entries of v are copied and
the extra properties assigned over them. -/
def jsSpreadWith (v : JSVal) (extra : Obj) : JSVal :=
  .vObj (mergeSpread (jsEntries v) extra)

/-- Embedding of the create wrapper watchChanges installs: the data is
stamped and passed to the original create. -/
def wrappedCreate (s : SyncCtx) (ctx : ModelCtx) (gen : String) (now : Int)
    (store : List Obj) (data : JSVal) : Except JSErr (JSVal × List Obj) :=
  create ctx gen store (jsSpreadWith data (syncStamp s now))

/-- Embedding of the update wrapper watchChanges installs.  The wrapper
is written with an (id, data) parameter list and forwards as
originalUpdate(id, syncData), but the original Model.update signature is
(data, id): the wrapper's id argument therefore arrives in the data
position and the stamped patch in the id position. -/
def wrappedUpdate (s : SyncCtx) (ctx : ModelCtx) (gen : String) (now : Int)
    (store : List Obj) (id data : JSVal) : Except JSErr (JSVal × List Obj) :=
  update ctx gen store id (jsSpreadWith data (syncStamp s now))

/-- Embedding of SyncManager.prepareForSync: a copy of the item with the
sync bookkeeping fields deleted. -/
def prepareForSync (s : SyncCtx) (item : JSVal) : Obj :=
  objDel (objDel (objDel (objDel (objDel (jsEntries item)
    s.syncStatusField) s.serverIdField) s.lastSyncField) "_syncErrors") "_localUpdatedAt"

/-- The patch pushToServer applies for one acknowledged item: status
synced, the server-id field set from the acknowledgment, and the
last-sync stamp. -/
def ackPatch (s : SyncCtx) (now : Int) (ack : Obj) : JSVal :=
  .vObj [(s.syncStatusField, .vStr "synced"),
         (s.serverIdField, objGet ack "serverId"),
         (s.lastSyncField, .vDate (some now))]

/-- Result shape of a push or pull: the success object with its
synchronized count, or the caught failure. -/
inductive SyncResult : Type where
  | success (n : Nat) : SyncResult
  | failure (e : JSErr) : SyncResult
  deriving DecidableEq

/-- The acknowledgment loop of pushToServer, written as the source calls
it: this.model.update(synced.localId, patch), whose first argument lands
in Model.update's data position and whose patch lands in the id
position.  The first rejection aborts the loop, keeping the mutations
made so far. -/
def pushAckLoop (s : SyncCtx) (ctx : ModelCtx) (gen : String) (now : Int) :
    List Obj → List Obj → List Obj × Option JSErr
  | store, [] => (store, none)
  | store, a :: rest =>
    match update ctx gen store (objGet a "localId") (ackPatch s now a) with
    | .error e => (store, some e)
    | .ok (_, store1) => pushAckLoop s ctx gen now store1 rest

/-- Embedding of SyncManager.pushToServer: the modified-status filter is
passed to find as the whole options object; the changeset built from the
fetched items and the transport are the outbound half, whose parsed
response acknowledgment list is the ack parameter; each acknowledgment is
applied through the update call; any rejection is caught at the operation
boundary and returned as a failure result. -/
def pushToServer (s : SyncCtx) (ctx : ModelCtx) (gen : String) (now : Int)
    (store : List Obj) (ack : List Obj) : SyncResult × List Obj :=
  match findRecords store (.vObj [(s.syncStatusField, .vStr "modified")]) with
  | .error e => (.failure e, store)
  | .ok _modifiedItems =>
    match pushAckLoop s ctx gen now store ack with
    | (store1, some e) => (.failure e, store1)
    | (store1, none) => (.success ack.length, store1)

/-- The overwrite patch handleConflict applies from a server item. -/
def conflictPatch (s : SyncCtx) (now : Int) (serverItem : JSVal) : JSVal :=
  .vObj (mergeSpread (jsEntries serverItem)
    [(s.serverIdField, jsGetProp serverItem s.idField),
     (s.syncStatusField, .vStr "synced"),
     (s.lastSyncField, .vDate (some now))])

/-- The manual-policy patch: the local item spread with conflict status
and the server version attached as a side channel. -/
def manualPatch (s : SyncCtx) (localItem serverItem : JSVal) : JSVal :=
  .vObj (mergeSpread (jsEntries localItem)
    [(s.syncStatusField, .vStr "conflict"),
     ("_serverVersion", serverItem)])

/-- One callback of the map inside SyncManager.handleConflict, for the
element item of the localItem array.  The source reads the sync status
and the id off localItem itself (the array) in the client-wins and
manual branches, and only the server-wins branch reads the element.  The
update calls place their first argument in Model.update's data position,
as the source does.  An unsupported policy string runs no branch and the
callback resolves with undefined. -/
def handleConflictStep (s : SyncCtx) (ctx : ModelCtx) (gen : String) (now : Int)
    (store : List Obj) (localItem serverItem item : JSVal) :
    Except JSErr JSVal × List Obj :=
  if s.conflictResolution == "server-wins" then
    match update ctx gen store (jsGetProp item s.idField) (conflictPatch s now serverItem) with
    | .error e => (.error e, store)
    | .ok (r, store1) => (.ok r, store1)
  else if s.conflictResolution == "client-wins" then
    if !strictEqB (jsGetProp localItem s.syncStatusField) (.vStr "modified") then
      match update ctx gen store (jsGetProp localItem s.idField) (conflictPatch s now serverItem) with
      | .error e => (.error e, store)
      | .ok (r, store1) => (.ok r, store1)
    else (.ok .vUndefined, store)
  else if s.conflictResolution == "manual" then
    match update ctx gen store (jsGetProp localItem s.idField) (manualPatch s localItem serverItem) with
    | .error e => (.error e, store)
    | .ok (r, store1) => (.ok r, store1)
  else (.ok .vUndefined, store)

/-- Embedding of SyncManager.handleConflict: the callback runs once per
element of the localItem array (the pair list of outcomes is what the
unawaited map produces; a rejected callback leaves its rejection
unhandled).  The callbacks are threaded sequentially; on the inputs the
claims evaluate, every callback either completes its single update or
throws before touching the store, so the threading order is faithful. -/
def handleConflict (s : SyncCtx) (ctx : ModelCtx) (gen : String) (now : Int)
    (store : List Obj) (localItem serverItem : JSVal) :
    List (Except JSErr JSVal) × List Obj :=
  let elems := match localItem with | .vArr xs => xs | _ => []
  let rec go : List JSVal → List Obj → List (Except JSErr JSVal) × List Obj
    | [], st => ([], st)
    | x :: xs, st =>
      let (r, st1) := handleConflictStep s ctx gen now st localItem serverItem x
      let (rs, st2) := go xs st1
      (r :: rs, st2)
  go elems store

/-
Concrete fixtures the witnesses, counterexamples and code evaluations
run on.
-/

/-- A plain String field. -/
def strFD : FieldDef := { type := .tString }

/-- A unique String field. -/
def strUniqueFD : FieldDef := { type := .tString, unique := true }

/-- A model over the minimal schema the constructor would produce from an
empty definition: the primary field alone. -/
def ctxMin : ModelCtx := ⟨"_id", [("_id", strUniqueFD)]⟩

/-- A single stored record holding only its primary key. -/
def recMin : Obj := [("_id", .vStr "a")]

/-- A model whose schema declares a unique email field next to the
primary. -/
def ctxMail : ModelCtx := ⟨"_id", [("_id", strUniqueFD), ("email", strUniqueFD)]⟩

/-- First create payload: explicit primary and email. -/
def mailData1 : JSVal := .vObj [("_id", .vStr "id1"), ("email", .vStr "x@y")]

/-- Second create payload: fresh primary, same explicit email value. -/
def mailData2 : JSVal := .vObj [("_id", .vStr "id2"), ("email", .vStr "x@y")]

/-- The stored (prepared) form of the first payload. -/
def mailRec1 : Obj := [("_id", .vStr "id1"), ("email", .vStr "x@y")]

/-- SyncManager configuration at its constructor defaults. -/
def sctxDef : SyncCtx := {}

/-- SyncManager configuration under the client-wins policy. -/
def sctxCW : SyncCtx := { conflictResolution := "client-wins" }

/-- A user schema of a name field next to the primary. -/
def nameDefn : SchemaDef := [("_id", strUniqueFD), ("name", strFD)]

/-- The name schema after prepareSyncSchema installed the sync
bookkeeping fields. -/
def syncDefn : SchemaDef := prepareSyncSchema sctxDef nameDefn

/-- The model bound to the sync-extended schema. -/
def ctxSync : ModelCtx := ⟨"_id", syncDefn⟩

/-- The 24-character identifier the generator returns in the sync
scenario. -/
def gen24 : String := "aaaaaaaaaaaaaaaaaaaaaaaa"

/-- The stored (prepared) record a wrapped create of a name record
produces: it carries the modified status stamp. -/
def syncRec : Obj :=
  [("name", .vStr "n"), ("_syncStatus", .vStr "modified"),
   ("_localUpdatedAt", .vDate (some 5000)), ("_id", .vStr gen24)]

/-- The store contents after that one wrapped create. -/
def syncStore : List Obj := [syncRec]

/-- The per-item acknowledgment of the push response for the record of
syncStore. -/
def ackMin : Obj := [("localId", .vStr gen24), ("serverId", .vStr "srv1")]

/-- A stored record in synced state, locally unmodified, which a remote
change also touched. -/
def cleanRec : Obj :=
  [("_id", .vStr "a"), ("name", .vStr "old"),
   ("_syncStatus", .vStr "synced"), ("_lastSync", .vDate (some 1000))]

/-- The remote version of cleanRec. -/
def serverItemNew : JSVal := .vObj [("_id", .vStr "a"), ("name", .vStr "new")]

/-- A locally modified record whose last-sync stamp is the latest in the
store. -/
def modRec : Obj :=
  [("_id", .vStr "m"), ("_syncStatus", .vStr "modified"),
   ("_lastSync", .vDate (some 2000))]

/-- A synced record with an older last-sync stamp than modRec. -/
def syncedRec : Obj :=
  [("_id", .vStr "s"), ("_syncStatus", .vStr "synced"),
   ("_lastSync", .vDate (some 1000))]

/-- A record a concrete query runs against. -/
def itemW : Obj := [("age", .vNum 35), ("role", .vStr "user")]

/-- A concrete query with an ordering operator and a membership
complement operator. -/
def queryW : List (String × JSVal) :=
  [("age", .vObj [("$gt", .vNum 30)]),
   ("role", .vObj [("$nin", .vArr [.vStr "admin"])])]

/-
Lemmas about the object operations.
-/

theorem objGet_nil (f : String) : objGet [] f = .vUndefined := rfl

theorem objGet_cons (p : String × JSVal) (rest : Obj) (f : String) :
    objGet (p :: rest) f = if p.1 == f then p.2 else objGet rest f := rfl

theorem objHas_cons (p : String × JSVal) (rest : Obj) (f : String) :
    objHas (p :: rest) f = (p.1 == f || objHas rest f) := rfl

theorem objHas_iff_mem (o : Obj) (f : String) :
    objHas o f = true ↔ f ∈ o.map Prod.fst := by
  induction o with
  | nil => simp [objHas]
  | cons p rest ih =>
    rw [objHas_cons, List.map_cons, List.mem_cons, Bool.or_eq_true, beq_iff_eq, ih]
    exact or_congr_left (by constructor <;> exact Eq.symm)

theorem objGet_objSet (o : Obj) (k : String) (v : JSVal) (f : String) :
    objGet (objSet o k v) f = if f = k then v else objGet o f := by
  induction o with
  | nil =>
    by_cases h : f = k
    · subst h; simp [objSet, objGet_cons]
    · have e : (k == f) = false := beq_eq_false_iff_ne.mpr (fun hc => h hc.symm)
      simp [objSet, objGet_cons, e, h, objGet_nil]
  | cons p rest ih =>
    by_cases h1 : p.1 = k
    · have step : objSet (p :: rest) k v = (k, v) :: rest := by
        simp [objSet, h1]
      rw [step]
      by_cases h : f = k
      · subst h; simp [objGet_cons]
      · have e : (k == f) = false := beq_eq_false_iff_ne.mpr (fun hc => h hc.symm)
        have e2 : (p.1 == f) = false :=
          beq_eq_false_iff_ne.mpr (fun hc => h (h1 ▸ hc).symm)
        rw [objGet_cons, e, if_neg (by simp), if_neg h, objGet_cons, e2]
        simp
    · have step : objSet (p :: rest) k v = p :: objSet rest k v := by
        simp [objSet, h1]
      rw [step]
      by_cases hpf : p.1 = f
      · have hfk : ¬f = k := fun hc => h1 (hpf.trans hc)
        rw [objGet_cons, if_pos (by simp [hpf]), if_neg hfk, objGet_cons,
          if_pos (by simp [hpf])]
      · have e : (p.1 == f) = false := beq_eq_false_iff_ne.mpr hpf
        rw [objGet_cons, e, if_neg (by simp), ih, objGet_cons, e]
        simp

theorem objHas_objSet (o : Obj) (k : String) (v : JSVal) (f : String) :
    objHas (objSet o k v) f = (k == f || objHas o f) := by
  induction o with
  | nil => simp [objSet, objHas_cons, objHas]
  | cons p rest ih =>
    by_cases h1 : p.1 = k
    · have step : objSet (p :: rest) k v = (k, v) :: rest := by
        simp [objSet, h1]
      rw [step, objHas_cons, objHas_cons, h1]
      cases hkf : (k == f) <;> simp
    · have step : objSet (p :: rest) k v = p :: objSet rest k v := by
        simp [objSet, h1]
      rw [step, objHas_cons, ih, objHas_cons]
      cases hpk : (p.1 == f) <;> cases hkf : (k == f) <;> simp

theorem objGet_eq_vUndef_of_not_objHas (o : Obj) (f : String)
    (h : objHas o f = false) : objGet o f = .vUndefined := by
  induction o with
  | nil => rfl
  | cons p rest ih =>
    rw [objHas_cons, Bool.or_eq_false_iff] at h
    rw [objGet_cons, h.1, if_neg (by simp), ih h.2]

theorem mergeSpread_get (a b : Obj) (hnd : (b.map Prod.fst).Nodup) (f : String) :
    objGet (mergeSpread a b) f =
      if objHas b f then objGet b f else objGet a f := by
  induction b generalizing a with
  | nil => simp [mergeSpread, objHas]
  | cons p rest ih =>
    rw [List.map_cons, List.nodup_cons] at hnd
    have step : mergeSpread a (p :: rest) = mergeSpread (objSet a p.1 p.2) rest := rfl
    rw [step, ih _ hnd.2]
    by_cases h : f = p.1
    · have hbeq : (p.1 == f) = true := beq_iff_eq.mpr h.symm
      have hrest : objHas rest f = false := by
        rw [← Bool.not_eq_true, objHas_iff_mem, h]
        exact hnd.1
      have hh : objHas (p :: rest) f = true := by
        rw [objHas_cons, hbeq, Bool.true_or]
      rw [hrest, if_neg (by simp), hh, if_pos rfl, objGet_objSet, if_pos h,
        objGet_cons, hbeq, if_pos rfl]
    · have e : (p.1 == f) = false := beq_eq_false_iff_ne.mpr (fun hc => h hc.symm)
      have hh : objHas (p :: rest) f = objHas rest f := by
        rw [objHas_cons, e, Bool.false_or]
      have hg : objGet (p :: rest) f = objGet rest f := by
        rw [objGet_cons, e, if_neg (by simp)]
      rw [objGet_objSet, if_neg h, hh, hg]

theorem nodup_keys_objSet (o : Obj) (k : String) (v : JSVal)
    (h : (o.map Prod.fst).Nodup) : ((objSet o k v).map Prod.fst).Nodup := by
  induction o with
  | nil => simp [objSet]
  | cons p rest ih =>
    rw [List.map_cons, List.nodup_cons] at h
    by_cases h1 : p.1 = k
    · have step : objSet (p :: rest) k v = (k, v) :: rest := by
        simp [objSet, h1]
      rw [step, List.map_cons, List.nodup_cons]
      exact ⟨h1 ▸ h.1, h.2⟩
    · have step : objSet (p :: rest) k v = p :: objSet rest k v := by
        simp [objSet, h1]
      rw [step, List.map_cons, List.nodup_cons]
      refine ⟨fun hmem => ?_, ih h.2⟩
      rw [← objHas_iff_mem, objHas_objSet, Bool.or_eq_true, beq_iff_eq] at hmem
      rcases hmem with hmem | hmem
      · exact h1 hmem.symm
      · exact h.1 ((objHas_iff_mem rest p.1).mp hmem)

theorem objHas_prepareGo (defn : SchemaDef) (l : List (String × JSVal)) (acc : Obj)
    (f : String) (h : objHas (prepareGo defn l acc) f = true) :
    objHas acc f = true ∨ ((schemaLookup defn f).isSome ∧ f ∈ l.map Prod.fst) := by
  induction l generalizing acc with
  | nil => exact Or.inl h
  | cons p rest ih =>
    simp only [prepareGo] at h
    cases hl : schemaLookup defn p.1 with
    | none =>
      rw [hl] at h
      rcases ih _ h with h1 | h2
      · exact Or.inl h1
      · exact Or.inr ⟨h2.1, by simp [h2.2]⟩
    | some fd =>
      rw [hl] at h
      rcases ih _ h with h1 | h2
      · rw [objHas_objSet, Bool.or_eq_true, beq_iff_eq] at h1
        rcases h1 with h1 | h1
        · refine Or.inr ⟨?_, by simp [h1.symm]⟩
          rw [h1] at hl
          simp [hl]
        · exact Or.inl h1
      · exact Or.inr ⟨h2.1, by simp [h2.2]⟩

theorem nodup_keys_prepareGo (defn : SchemaDef) (l : List (String × JSVal)) (acc : Obj)
    (h : (acc.map Prod.fst).Nodup) : ((prepareGo defn l acc).map Prod.fst).Nodup := by
  induction l generalizing acc with
  | nil => exact h
  | cons p rest ih =>
    simp only [prepareGo]
    cases hl : schemaLookup defn p.1 with
    | none => exact ih _ h
    | some fd => exact ih _ (nodup_keys_objSet _ _ _ h)

theorem nodup_keys_prepare (defn : SchemaDef) (l : List (String × JSVal)) :
    ((prepare defn l).map Prod.fst).Nodup :=
  nodup_keys_prepareGo defn l [] (by simp)

theorem objHas_prepare (defn : SchemaDef) (l : List (String × JSVal)) (f : String)
    (h : objHas (prepare defn l) f = true) :
    (schemaLookup defn f).isSome ∧ f ∈ l.map Prod.fst := by
  rcases objHas_prepareGo defn l [] f h with h1 | h2
  · cases h1
  · exact h2

theorem objGet_toDocument (defn : SchemaDef) (data : Obj) (f : String) :
    objGet (toDocument defn data) f =
      if f ∈ schemaFields defn ∧ isUndefinedV (objGet data f) = true then .vNull
      else objGet data f := by
  induction defn generalizing data with
  | nil => simp [toDocument, schemaFields]
  | cons p rest ih =>
    have step : toDocument (p :: rest) data =
        toDocument rest
          (if isUndefinedV (objGet data p.1) then objSet data p.1 .vNull else data) := rfl
    rw [step, ih]
    by_cases hu : isUndefinedV (objGet data p.1) = true
    · rw [if_pos hu]
      by_cases hf : f = p.1
      · have hget : objGet (objSet data p.1 .vNull) f = .vNull := by
          rw [objGet_objSet, if_pos hf]
        have hmem : f ∈ schemaFields (p :: rest) := by
          simp [schemaFields, hf]
        rw [hget, if_neg (fun hc => by simp [isUndefinedV] at hc),
          if_pos ⟨hmem, hf ▸ hu⟩]
      · have hget : objGet (objSet data p.1 .vNull) f = objGet data f := by
          rw [objGet_objSet, if_neg hf]
        have hmem : (f ∈ schemaFields (p :: rest)) ↔ (f ∈ schemaFields rest) := by
          simp only [schemaFields, List.map_cons, List.mem_cons]
          exact ⟨fun hc => hc.resolve_left hf, Or.inr⟩
        rw [hget]
        simp only [hmem]
    · rw [if_neg hu]
      by_cases hf : f = p.1
      · have hnu : ¬isUndefinedV (objGet data f) = true := hf ▸ hu
        rw [if_neg (fun hc => hnu hc.2), if_neg (fun hc => hnu hc.2)]
      · have hmem : (f ∈ schemaFields (p :: rest)) ↔ (f ∈ schemaFields rest) := by
          simp only [schemaFields, List.map_cons, List.mem_cons]
          exact ⟨fun hc => hc.resolve_left hf, Or.inr⟩
        simp only [hmem]

theorem objGet_toObject (defn : SchemaDef) (doc : Obj) (f : String) :
    objGet (toObject defn doc) f =
      if f ∈ schemaFields defn ∧ isNull (objGet doc f) = true then .vUndefined
      else objGet doc f := by
  induction defn generalizing doc with
  | nil => simp [toObject, schemaFields]
  | cons p rest ih =>
    have step : toObject (p :: rest) doc =
        toObject rest
          (if isNull (objGet doc p.1) then objSet doc p.1 .vUndefined else doc) := rfl
    rw [step, ih]
    by_cases hu : isNull (objGet doc p.1) = true
    · rw [if_pos hu]
      by_cases hf : f = p.1
      · have hget : objGet (objSet doc p.1 .vUndefined) f = .vUndefined := by
          rw [objGet_objSet, if_pos hf]
        have hmem : f ∈ schemaFields (p :: rest) := by
          simp [schemaFields, hf]
        rw [hget, if_neg (fun hc => by simp [isNull] at hc),
          if_pos ⟨hmem, hf ▸ hu⟩]
      · have hget : objGet (objSet doc p.1 .vUndefined) f = objGet doc f := by
          rw [objGet_objSet, if_neg hf]
        have hmem : (f ∈ schemaFields (p :: rest)) ↔ (f ∈ schemaFields rest) := by
          simp only [schemaFields, List.map_cons, List.mem_cons]
          exact ⟨fun hc => hc.resolve_left hf, Or.inr⟩
        rw [hget]
        simp only [hmem]
    · rw [if_neg hu]
      by_cases hf : f = p.1
      · have hnu : ¬isNull (objGet doc f) = true := hf ▸ hu
        rw [if_neg (fun hc => hnu hc.2), if_neg (fun hc => hnu hc.2)]
      · have hmem : (f ∈ schemaFields (p :: rest)) ↔ (f ∈ schemaFields rest) := by
          simp only [schemaFields, List.map_cons, List.mem_cons]
          exact ⟨fun hc => hc.resolve_left hf, Or.inr⟩
        simp only [hmem]

theorem mem_schemaFields_of_lookup (defn : SchemaDef) (f : String)
    (h : (schemaLookup defn f).isSome = true) : f ∈ schemaFields defn := by
  induction defn with
  | nil => simp [schemaLookup] at h
  | cons p rest ih =>
    by_cases h1 : p.1 = f
    · simp [schemaFields, h1.symm]
    · have e : (p.1 == f) = false := beq_eq_false_iff_ne.mpr h1
      rw [schemaLookup, e] at h
      simp only [Bool.false_eq_true, if_false] at h
      simp only [schemaFields, List.map_cons, List.mem_cons]
      exact Or.inr (ih h)

theorem schemaLookup_schemaSet (defn : SchemaDef) (k : String) (fd : FieldDef)
    (f : String) :
    schemaLookup (schemaSet defn k fd) f =
      if f = k then some fd else schemaLookup defn f := by
  induction defn with
  | nil =>
    by_cases h : f = k
    · subst h; simp [schemaSet, schemaLookup]
    · have e : (k == f) = false := beq_eq_false_iff_ne.mpr (fun hc => h hc.symm)
      simp [schemaSet, schemaLookup, e, h]
  | cons p rest ih =>
    by_cases h1 : p.1 = k
    · have step : schemaSet (p :: rest) k fd = (k, fd) :: rest := by
        simp [schemaSet, h1]
      rw [step]
      by_cases h : f = k
      · subst h; simp [schemaLookup]
      · have e : (k == f) = false := beq_eq_false_iff_ne.mpr (fun hc => h hc.symm)
        have e2 : (p.1 == f) = false :=
          beq_eq_false_iff_ne.mpr (fun hc => h (h1 ▸ hc).symm)
        rw [schemaLookup, e, if_neg (by simp), if_neg h, schemaLookup, e2]
        simp
    · have step : schemaSet (p :: rest) k fd = p :: schemaSet rest k fd := by
        simp [schemaSet, h1]
      rw [step]
      by_cases hpf : p.1 = f
      · have hfk : ¬f = k := fun hc => h1 (hpf.trans hc)
        rw [schemaLookup, if_pos (by simp [hpf]), if_neg hfk, schemaLookup,
          if_pos (by simp [hpf])]
      · have e : (p.1 == f) = false := beq_eq_false_iff_ne.mpr hpf
        rw [schemaLookup, e, if_neg (by simp), ih, schemaLookup, e]
        simp

theorem everyE_eq_all {α : Type} (f : α → Except JSErr Bool) (g : α → Bool)
    (l : List α) (h : ∀ x ∈ l, f x = .ok (g x)) :
    everyE f l = .ok (l.all g) := by
  induction l with
  | nil => rfl
  | cons x xs ih =>
    have hx := h x (by simp)
    simp only [everyE, hx]
    cases hg : g x
    · simp [List.all_cons, hg]
    · simp only [List.all_cons, hg, Bool.true_and]
      exact ih (fun y hy => h y (by simp [hy]))

theorem evalOp_ok (iv : JSVal) (op : String) (od : JSVal)
    (h : (op = "$in" ∨ op = "$nin") →
      (match od with | .vArr _ => true | .vStr _ => true | _ => false) = true) :
    evalOp iv op od = .ok (opHolds iv op od) := by
  unfold opHolds
  by_cases h1 : op = "$gt"
  · simp [evalOp, h1]
  by_cases h2 : op = "$gte"
  · simp [evalOp, beq_iff_eq, h1, h2]
  by_cases h3 : op = "$lt"
  · simp [evalOp, beq_iff_eq, h1, h2, h3]
  by_cases h4 : op = "$lte"
  · simp [evalOp, beq_iff_eq, h1, h2, h3, h4]
  by_cases h5 : op = "$ne"
  · simp [evalOp, beq_iff_eq, h1, h2, h3, h4, h5]
  by_cases h6 : op = "$in"
  · have hsh := h (Or.inl h6)
    cases od <;> simp [evalOp, beq_iff_eq, h1, h2, h3, h4, h5, h6, jsIncludes] <;>
      simp at hsh
  by_cases h7 : op = "$nin"
  · have hsh := h (Or.inr h7)
    cases od <;>
      simp [evalOp, beq_iff_eq, h1, h2, h3, h4, h5, h6, h7, jsIncludes, Except.map] <;>
      simp at hsh
  · simp [evalOp, beq_iff_eq, h1, h2, h3, h4, h5, h6, h7]

theorem keyEq_vStr (v : JSVal) (s : String) (h : keyEq v (.vStr s) = true) :
    v = .vStr s := by
  cases v with
  | vStr t => rw [show t = s from beq_iff_eq.mp h]
  | vDate t => cases t <;> simp [keyEq] at h
  | _ => simp [keyEq] at h

theorem objDel_not_mem (l : Obj) (k : String) : k ∉ (objDel l k).map Prod.fst := by
  intro hmem
  rcases List.mem_map.mp hmem with ⟨p, hp, hk⟩
  rw [objDel, List.mem_filter] at hp
  rw [hk] at hp
  simp at hp

theorem schemaLookup_append_none (defn tail : SchemaDef) (f : String)
    (h : schemaLookup defn f = none) :
    schemaLookup (defn ++ tail) f = schemaLookup tail f := by
  induction defn with
  | nil => rfl
  | cons p rest ih =>
    rw [schemaLookup] at h
    by_cases h1 : (p.1 == f) = true
    · rw [if_pos h1] at h; cases h
    · rw [if_neg h1] at h
      rw [List.cons_append, schemaLookup, if_neg h1]
      exact ih h

theorem eq_undefined_of_undefinedB (x : JSVal) (h : isUndefinedV x = true) : x = .vUndefined := by
  cases x <;> first | rfl | simp [isUndefinedV] at h

/-
The claims.
-/

/-- C9 counterexample: the claim states the primary definition always ends
up with both String type and a unique constraint.  For a schema that
declares the primary as a non-String field without unique, the
constructor's else-if chain rewrites only the type and never reaches the
unique branch, so the normalized definition still lacks the unique
flag. -/
theorem c9_counterexample :
    (schemaLookup (normalizePrimary "_id" [("_id", { type := .tNumber })]) "_id").map
        FieldDef.unique = some false := rfl

/-- C9 (amended): after construction the primary field definition always
exists with declared type String; the unique flag is set when the field
was absent (added as unique String) or when its declared type was already
String, but a pre-existing non-String primary definition keeps its prior
unique flag, because the type rewrite and the unique-flag branches are an
else-if chain and at most one runs. -/
theorem c9_primary_normalized (primary : String) (defn : SchemaDef) :
    ∃ fd : FieldDef,
      schemaLookup (normalizePrimary primary defn) primary = some fd ∧
      fd.type = .tString ∧
      fd.unique =
        (match schemaLookup defn primary with
         | none => true
         | some fd0 => if fd0.type != .tString then fd0.unique else true) := by
  cases hl : schemaLookup defn primary with
  | none =>
    refine ⟨{ type := .tString, unique := true }, ?_, rfl, rfl⟩
    simp only [normalizePrimary, hl]
    rw [schemaLookup_append_none defn _ primary hl, schemaLookup,
      if_pos (beq_self_eq_true primary)]
  | some fd0 =>
    by_cases ht : fd0.type = .tString
    · have hbne : (fd0.type != .tString) = false := by simp [ht]
      by_cases hu : fd0.unique = true
      · refine ⟨fd0, ?_, ht, ?_⟩
        · simp only [normalizePrimary, hl, hbne, Bool.false_eq_true, if_false, hu,
            Bool.not_true]
        · simp [hbne, hu]
      · have hu2 : fd0.unique = false := by
          cases hb : fd0.unique
          · rfl
          · exact absurd hb hu
        refine ⟨{ fd0 with unique := true }, ?_, ht, ?_⟩
        · simp only [normalizePrimary, hl, hbne, Bool.false_eq_true, if_false, hu2,
            Bool.not_false, if_true]
          rw [schemaLookup_schemaSet, if_pos rfl]
        · simp [hbne]
    · have hbne : (fd0.type != .tString) = true := by simp [ht]
      refine ⟨{ fd0 with type := .tString }, ?_, rfl, ?_⟩
      · simp only [normalizePrimary, hl, hbne, if_true]
        rw [schemaLookup_schemaSet, if_pos rfl]
      · simp [hbne]

/-- C10: deleting an id that matches no record of the active collection
still resolves successfully with the id itself, and the collection
contents are unchanged; the outcome is the same shape a successful
deletion produces, so a missing key is indistinguishable from a deleted
one at the public interface. -/
theorem c10_delete_missing (ctx : ModelCtx) (store : List Obj) (id : JSVal)
    (hvalid : validKey id = true)
    (habsent : ∀ r ∈ store, keyEq (objGet r ctx.primary) id = false) :
    deleteOp ctx store id = .ok (id, store) := by
  have hfilter : store.filter (fun r => !keyEq (objGet r ctx.primary) id) = store := by
    induction store with
    | nil => rfl
    | cons r rest ih =>
      rw [List.filter_cons, if_pos (by rw [habsent r (by simp)]; rfl)]
      rw [ih (fun r1 hr1 => habsent r1 (by simp [hr1]))]
  unfold deleteOp storeDelete
  rw [if_pos hvalid]
  simp only [bind, Except.bind, hfilter]
  rfl

/-- C10 witness: deleting a key that is absent from a one-record store
returns the key and leaves the record in place. -/
theorem c10_delete_missing_witness :
    deleteOp ctxMin [recMin] (.vStr "zz") = .ok (.vStr "zz", [recMin]) :=
  c10_delete_missing ctxMin [recMin] (.vStr "zz") rfl
    (fun r hr => by
      rw [List.mem_singleton] at hr
      rw [hr]
      rfl)

/-- C8 counterexample: the claim states every Date instance is kept by the
Date cast, but an Invalid Date instance (time value NaN) is cast to null
by the explicit isNaN check, so the cast result differs from the
instance. -/
theorem c8_counterexample :
    castValue (.vDate none) .tDate = .vNull ∧ JSVal.vNull ≠ .vDate none :=
  ⟨rfl, fun h => JSVal.noConfusion h⟩

/-- C8 (amended): casting to a Date-typed field never throws and is fully
characterized: a valid Date instance is kept, an Invalid Date instance is
cast to null, a string is converted to a Date exactly when the date
parser accepts it and is cast to null otherwise, and every other value is
cast to null (each null case with a console warning); and only fields
declared in the schema survive _prepare. -/
theorem c8_cast_amended :
    (∀ v : JSVal, castValue v .tDate =
      (match v with
       | .vDate (some t) => .vDate (some t)
       | .vStr s =>
         (match jsDateParse s with
          | some ms => .vDate (some ms)
          | none => .vNull)
       | _ => .vNull)) ∧
    (∀ (defn : SchemaDef) (l : List (String × JSVal)) (k : String),
      objHas (prepare defn l) k = true → k ∈ schemaFields defn) := by
  constructor
  · intro v
    cases v with
    | vDate t => cases t <;> rfl
    | vStr s => cases hp : jsDateParse s <;> simp [castValue, hp]
    | _ => rfl
  · intro defn l k h
    exact mem_schemaFields_of_lookup defn k (by simp [(objHas_prepare defn l k h).1])

/-- C8 witness: a parseable ISO date string converts to the parsed Date,
and a declared field of a prepared object is among the schema fields. -/
theorem c8_cast_amended_witness :
    (castValue (.vStr "2024-01-02") .tDate = .vDate (some 1704153600000)) ∧
    "name" ∈ schemaFields [("name", strFD)] :=
  ⟨(c8_cast_amended.1 (.vStr "2024-01-02")).trans (by rfl),
   c8_cast_amended.2 [("name", strFD)] [("name", .vStr "x"), ("junk", .vNum 1)] "name" rfl⟩

/-- C4: on the declared-field subset, toObject inverts toDocument: for
every schema and record whose declared fields do not hold null as a
genuine value, reading any declared field after the round trip gives
exactly what the record held (absent and undefined fields come back as
undefined, genuine values unchanged). -/
theorem c4_to_document_roundtrip (defn : SchemaDef) (r : Obj) (f : String)
    (hf : f ∈ schemaFields defn) (hnn : isNull (objGet r f) = false) :
    objGet (toObject defn (toDocument defn r)) f = objGet r f := by
  rw [objGet_toObject, objGet_toDocument]
  cases hu : isUndefinedV (objGet r f) with
  | true =>
    have hinner :
        (if f ∈ schemaFields defn ∧ (true : Bool) = true then JSVal.vNull
         else objGet r f) = JSVal.vNull := if_pos ⟨hf, rfl⟩
    rw [hinner, if_pos ⟨hf, rfl⟩]
    exact (eq_undefined_of_undefinedB _ hu).symm
  | false =>
    have hinner :
        (if f ∈ schemaFields defn ∧ (false : Bool) = true then JSVal.vNull
         else objGet r f) = objGet r f := if_neg (fun hc => Bool.false_ne_true hc.2)
    rw [hinner, if_neg (fun hc => Bool.false_ne_true (hnn ▸ hc.2))]

/-- C4 witness: the round trip restores a held value and an absent
declared field of a concrete record. -/
theorem c4_to_document_roundtrip_witness :
    objGet (toObject nameDefn (toDocument nameDefn [("name", .vStr "x")])) "name"
      = objGet [("name", .vStr "x")] "name" :=
  c4_to_document_roundtrip nameDefn [("name", .vStr "x")] "name"
    (by simp [nameDefn, schemaFields]) rfl

theorem exceptBind_ok {α β : Type} (x : Except JSErr α) (g : α → Except JSErr β)
    (b : β) (h : (x >>= g) = .ok b) : ∃ a, x = .ok a ∧ g a = .ok b := by
  cases x with
  | error e => simp [Bind.bind, Except.bind] at h
  | ok a => exact ⟨a, rfl, by simpa [Bind.bind, Except.bind] using h⟩

theorem fieldErrors_update_no_unique (store : List Obj) (data : JSVal)
    (f : String) (fd : FieldDef) (es : List VErr)
    (h : fieldErrors store data "update" f fd = .ok es) :
    ∀ g, VErr.unique g ∉ es := by
  have hcond : (fd.unique && (("update" : String) != "update")) = false := by simp
  unfold fieldErrors at h
  rw [hcond] at h
  simp only [Bool.false_eq_true, if_false, Bind.bind, Except.bind, pure,
    Except.pure, Except.ok.injEq] at h
  intro g hg
  rw [← h] at hg
  simp only [List.mem_append] at hg
  rcases hg with ((hg | hg) | hg) | hg
  · split at hg <;> simp at hg
  · simp at hg
  · split at hg
    · split at hg <;> simp at hg
    · simp at hg
  · split at hg
    · split at hg
      · split at hg <;> simp at hg
      · simp at hg
    · simp at hg

theorem fieldErrors_create_unique (store : List Obj) (data : JSVal)
    (f : String) (fd : FieldDef) (existing : List Obj) (es : List VErr)
    (hu : fd.unique = true)
    (hfind : findRecords store (uniqueProbeArg f (jsGetProp data f)) = .ok existing)
    (hne : existing ≠ [])
    (h : fieldErrors store data "create" f fd = .ok es) :
    VErr.unique f ∈ es := by
  have hcond : (fd.unique && (("create" : String) != "update")) = true := by
    rw [hu]
    rfl
  have hlen : existing.length > 0 := List.length_pos.mpr hne
  unfold fieldErrors at h
  rw [hcond] at h
  simp only [if_true, Bind.bind, Except.bind, hfind, pure, Except.pure,
    Except.ok.injEq] at h
  rw [if_pos hlen] at h
  rw [← h]
  simp

theorem validationLoop_update_no_unique (store : List Obj) (data : JSVal)
    (defn : SchemaDef) (errs : List VErr)
    (h : validationLoop store data "update" defn = .ok errs) :
    ∀ g, VErr.unique g ∉ errs := by
  induction defn generalizing errs with
  | nil =>
    unfold validationLoop at h
    cases h
    simp
  | cons p rest ih =>
    obtain ⟨f, fd⟩ := p
    unfold validationLoop at h
    obtain ⟨es, hes, h2⟩ := exceptBind_ok _ _ _ h
    obtain ⟨r, hr, h3⟩ := exceptBind_ok _ _ _ h2
    have herrs : errs = es ++ r := by
      simpa [pure, Except.pure] using h3.symm
    intro g hg
    rw [herrs, List.mem_append] at hg
    rcases hg with hg | hg
    · exact fieldErrors_update_no_unique store data f fd es hes g hg
    · exact ih r hr g hg

theorem validationLoop_create_unique (store : List Obj) (data : JSVal)
    (f : String) (fd : FieldDef) (existing : List Obj) (defn : SchemaDef)
    (errs : List VErr)
    (hl : schemaLookup defn f = some fd) (hu : fd.unique = true)
    (hfind : findRecords store (uniqueProbeArg f (jsGetProp data f)) = .ok existing)
    (hne : existing ≠ [])
    (h : validationLoop store data "create" defn = .ok errs) :
    VErr.unique f ∈ errs := by
  induction defn generalizing errs with
  | nil => cases hl
  | cons p rest ih =>
    obtain ⟨g, gd⟩ := p
    unfold validationLoop at h
    obtain ⟨es, hes, h2⟩ := exceptBind_ok _ _ _ h
    obtain ⟨r, hr, h3⟩ := exceptBind_ok _ _ _ h2
    have herrs : errs = es ++ r := by
      simpa [pure, Except.pure] using h3.symm
    rw [herrs, List.mem_append]
    by_cases hgf : g = f
    · subst hgf
      rw [schemaLookup, if_pos (beq_self_eq_true g)] at hl
      have hfd : gd = fd := Option.some.inj hl
      subst hfd
      exact Or.inl (fieldErrors_create_unique store data g gd existing es hu hfind hne hes)
    · rw [schemaLookup, if_neg (by simp [hgf])] at hl
      exact Or.inr (ih r hl hr)

/-- C3: uniqueness is enforced on create and only on create.  On create,
for every field declared unique whose probe of the existing records of
the active collection finds a record holding the same value, validation
reports a uniqueness violation; concretely, creating two records with an
explicit, identical unique field value succeeds for the first and fails
the second with the aggregated uniqueness violation; and a validation run
for an update never reports a uniqueness violation for any field. -/
theorem c3_unique_create_only :
    (∀ (ctx : ModelCtx) (store : List Obj) (data : JSVal) (f : String)
        (fd : FieldDef) (existing : List Obj) (errs : List VErr),
      schemaLookup ctx.defn f = some fd → fd.unique = true →
      findRecords store (uniqueProbeArg f (jsGetProp data f)) = .ok existing →
      existing ≠ [] →
      validationErrorList ctx store data "create" = .ok errs →
      VErr.unique f ∈ errs) ∧
    (create ctxMail "g1" [] mailData1 = .ok (mailData1, [mailRec1]) ∧
     create ctxMail "g2" [mailRec1] mailData2
        = .error (.validation [.unique "email"])) ∧
    (∀ (ctx : ModelCtx) (store : List Obj) (data : JSVal) (errs : List VErr),
      validationErrorList ctx store data "update" = .ok errs →
      ∀ g, VErr.unique g ∉ errs) := by
  refine ⟨?_, ⟨rfl, rfl⟩, ?_⟩
  · intro ctx store data f fd existing errs hl hu hfind hne h
    exact validationLoop_create_unique store data f fd existing ctx.defn errs hl hu
      hfind hne h
  · intro ctx store data errs h
    exact validationLoop_update_no_unique store data ctx.defn errs h

/-- C3 witness: the general create-probe part applied to the concrete
email collision, and the update part applied to a concrete patch holding
the colliding value. -/
theorem c3_unique_create_only_witness :
    VErr.unique "email" ∈ [VErr.unique "email"] ∧
    VErr.unique "email" ∉ ([] : List VErr) :=
  ⟨c3_unique_create_only.1 ctxMail [mailRec1] mailData2 "email" strUniqueFD
      [mailRec1] [.unique "email"] rfl rfl rfl (by simp) rfl,
   c3_unique_create_only.2.2 ctxMail [mailRec1] (.vObj [("email", .vStr "x@y")])
      [] rfl "email"⟩

/-- C2: for every record and every query object whose $in and $nin
operands are of a shape whose includes call does not throw, _matchesQuery
returns true exactly when every field clause holds (implicit AND): a
literal clause is a strict-equality test, an operator-object clause needs
every operator entry to hold, and an operator key outside the supported
set holds for no record (fails closed). -/
theorem c2_matches_query_spec (item : Obj) (q : List (String × JSVal))
    (hwf : wfQuery q = true) :
    matchesQuery item (.vObj q) = .ok true ↔ specMatches item q = true := by
  have key : matchesQuery item (.vObj q) = .ok (specMatches item q) := by
    unfold matchesQuery specMatches
    simp only [jsEntries]
    apply everyE_eq_all
    intro p hp
    rw [wfQuery, List.all_eq_true] at hwf
    have hwfp := hwf p hp
    by_cases ho : objectLike p.2 = true
    · rw [if_pos ho]
      unfold clauseHolds
      rw [if_pos ho]
      apply everyE_eq_all
      intro qq hqq
      apply evalOp_ok
      intro hop
      have hall :
          ((jsEntries p.2).all (fun qq =>
            (qq.1 != "$in" && qq.1 != "$nin") ||
              (match qq.2 with
               | .vArr _ => true | .vStr _ => true | _ => false))) = true := by
        rw [ho] at hwfp
        simpa using hwfp
      have hq := List.all_eq_true.mp hall qq hqq
      rcases hop with hop | hop
      · rw [hop] at hq
        simpa using hq
      · rw [hop] at hq
        simpa using hq
    · rw [if_neg ho]
      unfold clauseHolds
      rw [if_neg ho]
  rw [key]
  exact ⟨fun h => Except.ok.inj h, fun h => by rw [h]⟩

/-- C2 witness: a record matching a conjunctive query with an ordering
operator and a complement-membership operator. -/
theorem c2_matches_query_spec_witness :
    matchesQuery itemW (.vObj queryW) = .ok true :=
  (c2_matches_query_spec itemW queryW rfl).mpr rfl

/-- C5 (code evaluation): the create wrapper watchChanges installs does
stamp the stored record with modified status, but the push path never
marks it synced: pushToServer forwards each acknowledgment as
model.update(localId, patch) while Model.update's signature is
update(data, id), so the patch object lands in the id position, the
IndexedDB get throws DataError, the catch returns a failure result and
the store is unchanged (the record keeps status modified and its local
id); the update wrapper fails the same way for every call, so no record
is ever written through it. -/
theorem c5_sync_write_paths :
    (wrappedCreate sctxDef ctxSync gen24 5000 [] (.vObj [("name", .vStr "n")])
      = .ok (.vObj [("name", .vStr "n"), ("_syncStatus", .vStr "modified"),
          ("_localUpdatedAt", .vDate (some 5000)), ("_id", .vStr gen24)], syncStore)) ∧
    objGet syncRec "_syncStatus" = .vStr "modified" ∧
    pushToServer sctxDef ctxSync gen24 6000 syncStore [ackMin]
      = (.failure .dataError, syncStore) ∧
    objGet syncRec "_id" = .vStr gen24 ∧
    wrappedUpdate sctxDef ctxSync gen24 6000 syncStore (.vStr gen24)
        (.vObj [("name", .vStr "z")])
      = .error .dataError :=
  ⟨rfl, rfl, rfl, rfl, rfl⟩

/-- C6 (code evaluation): under client-wins, a local record that is NOT
modified (status synced) should be overwritten by the remote values, but
handleConflict reads the sync status and the id off the localItem array
instead of the record: the array has no status property (so the guard
passes) and no id property, and the update call receives undefined in
Model.update's data position, whose primary-field delete throws a
TypeError before any store access; no overwrite ever happens and the
record keeps its local values. -/
theorem c6_client_wins_no_overwrite :
    objGet cleanRec "_syncStatus" = .vStr "synced" ∧
    objGet cleanRec "name" = .vStr "old" ∧
    handleConflict sctxCW ctxSync gen24 7000 [cleanRec] (.vArr [.vObj cleanRec])
        serverItemNew
      = ([.error (.typeError "cannot convert undefined to object")], [cleanRec]) :=
  ⟨rfl, rfl, rfl⟩

/-- C1 counterexample: the claim states the stored record after update
equals the prior record with exactly the patch's fields replaced; but a
patch field that is not declared in the schema is dropped by _prepare
before the merge, so updating the one-field record with the patch
holding foo never stores or returns foo. -/
theorem c1_counterexample :
    update ctxMin "g" [recMin] (.vObj [("foo", .vNum 1)]) (.vStr "a")
      = .ok (.vObj [("_id", .vStr "a")], [[("_id", .vStr "a")]]) ∧
    objGet [("_id", .vStr "a")] "foo" = .vUndefined ∧
    JSVal.vUndefined ≠ .vNum 1 :=
  ⟨rfl, rfl, fun h => JSVal.noConfusion h⟩

/-- C1 (amended): update(data, id) with a nonempty id string first strips
the primary field from the patch and re-validates it; when validation
passes: if no record with that id exists the call fails with the
not-found error; if one exists, the stored and returned record is the
prior record shallow-merged with the schema-filtered, type-cast patch
(the prepared patch's fields win, every other field of the prior record
is intact, and undeclared patch fields are dropped), and the primary key
is unchanged even if the patch included a primary field value. -/
theorem c1_update_merge (ctx : ModelCtx) (gen : String) (store : List Obj)
    (patch : Obj) (idStr : String) (hid : idStr ≠ "")
    (hval : validationErrorList ctx store (.vObj (objDel patch ctx.primary))
      "update" = .ok []) :
    (storeFind ctx.primary store (.vStr idStr) = none →
      update ctx gen store (.vObj patch) (.vStr idStr) = .error .notFound) ∧
    (∀ item, storeFind ctx.primary store (.vStr idStr) = some item →
      update ctx gen store (.vObj patch) (.vStr idStr)
        = .ok (.vObj (mergeSpread item (prepare ctx.defn (objDel patch ctx.primary))),
            store.map (fun r =>
              if keyEq (objGet r ctx.primary) (.vStr idStr) then
                mergeSpread item (prepare ctx.defn (objDel patch ctx.primary))
              else r)) ∧
      (∀ f, objGet (mergeSpread item (prepare ctx.defn (objDel patch ctx.primary))) f
          = if objHas (prepare ctx.defn (objDel patch ctx.primary)) f = true then
              objGet (prepare ctx.defn (objDel patch ctx.primary)) f
            else objGet item f) ∧
      objGet (mergeSpread item (prepare ctx.defn (objDel patch ctx.primary)))
          ctx.primary
        = objGet item ctx.primary) := by
  have htr : JSVal.truthy (.vStr idStr) = true := by
    simp [JSVal.truthy, hid]
  have hres : resolvePk ctx gen (.vObj (objDel patch ctx.primary)) "update"
      (.vStr idStr) = .ok (.vObj (objDel patch ctx.primary)) := by
    unfold resolvePk
    rw [show (("update" : String) == "create") = false from rfl,
      show (("update" : String) == "update") = true from rfl, htr]
    simp
  have hvd : validateData ctx gen store (.vObj (objDel patch ctx.primary))
      "update" (.vStr idStr) = .ok (.vObj (objDel patch ctx.primary)) := by
    unfold validateData
    rw [hres]
    simp only [Bind.bind, Except.bind]
    rw [hval]
    simp [pure, Except.pure]
  have hsg : storeGet ctx.primary store (.vStr idStr)
      = .ok (storeFind ctx.primary store (.vStr idStr)) := by
    unfold storeGet
    rw [if_pos (show validKey (.vStr idStr) = true from rfl)]
  have hstep : update ctx gen store (.vObj patch) (.vStr idStr)
      = (match storeFind ctx.primary store (.vStr idStr) with
         | none => .error .notFound
         | some item =>
           let updatedItem := mergeSpread item
             (prepare ctx.defn (objDel patch ctx.primary))
           (storePut ctx.primary store updatedItem).bind
             (fun store1 => .ok (.vObj updatedItem, store1))) := by
    unfold update
    rw [htr]
    simp only [eq_self_iff_true, if_true, jsDelProp, Bind.bind, Except.bind]
    rw [hvd, hsg]
    rfl
  have hprep := nodup_keys_prepare ctx.defn (objDel patch ctx.primary)
  have hnoPk : objHas (prepare ctx.defn (objDel patch ctx.primary)) ctx.primary
      = false := by
    cases hb : objHas (prepare ctx.defn (objDel patch ctx.primary)) ctx.primary
    · rfl
    · exact absurd (objHas_prepare _ _ _ hb).2 (objDel_not_mem patch ctx.primary)
  constructor
  · intro hnone
    rw [hstep, hnone]
  · intro item hsome
    have hpred := List.find?_some hsome
    have hkey : objGet item ctx.primary = .vStr idStr := keyEq_vStr _ _ hpred
    have hmem : item ∈ store := List.mem_of_find?_eq_some hsome
    have hmerge : ∀ f,
        objGet (mergeSpread item (prepare ctx.defn (objDel patch ctx.primary))) f
          = if objHas (prepare ctx.defn (objDel patch ctx.primary)) f = true then
              objGet (prepare ctx.defn (objDel patch ctx.primary)) f
            else objGet item f :=
      fun f => mergeSpread_get item _ hprep f
    have hmk : objGet (mergeSpread item (prepare ctx.defn (objDel patch ctx.primary)))
        ctx.primary = .vStr idStr := by
      rw [hmerge ctx.primary, hnoPk]
      simp only [Bool.false_eq_true, if_false]
      exact hkey
    have hany : (store.any (fun r1 =>
        keyEq (objGet r1 ctx.primary) (.vStr idStr))) = true :=
      List.any_eq_true.mpr ⟨item, hmem, hpred⟩
    have hput : storePut ctx.primary store
        (mergeSpread item (prepare ctx.defn (objDel patch ctx.primary)))
        = .ok (store.map (fun r =>
            if keyEq (objGet r ctx.primary) (.vStr idStr) then
              mergeSpread item (prepare ctx.defn (objDel patch ctx.primary))
            else r)) := by
      unfold storePut
      simp only [hmk, hany, show validKey (JSVal.vStr idStr) = true from rfl,
        eq_self_iff_true, if_true]
    refine ⟨?_, hmerge, hmk.trans hkey.symm⟩
    rw [hstep, hsome]
    show (storePut ctx.primary store
        (mergeSpread item (prepare ctx.defn (objDel patch ctx.primary)))).bind
        (fun store1 => Except.ok
          (JSVal.vObj (mergeSpread item (prepare ctx.defn (objDel patch ctx.primary))),
            store1))
      = Except.ok
          (JSVal.vObj (mergeSpread item (prepare ctx.defn (objDel patch ctx.primary))),
            store.map (fun r =>
              if keyEq (objGet r ctx.primary) (.vStr idStr) then
                mergeSpread item (prepare ctx.defn (objDel patch ctx.primary))
              else r))
    rw [hput]
    rfl

/-- C1 witness: updating an existing record by id with a declared-field
patch stores and returns the prior record with that field replaced. -/
theorem c1_update_merge_witness :
    update ctxMail "g" [mailRec1] (.vObj [("email", .vStr "new@y")]) (.vStr "id1")
      = .ok (.vObj (mergeSpread mailRec1
            (prepare ctxMail.defn (objDel [("email", .vStr "new@y")] ctxMail.primary))),
          [mailRec1].map (fun r =>
            if keyEq (objGet r ctxMail.primary) (.vStr "id1") then
              mergeSpread mailRec1
                (prepare ctxMail.defn (objDel [("email", .vStr "new@y")] ctxMail.primary))
            else r)) :=
  ((c1_update_merge ctxMail "g" [mailRec1] [("email", .vStr "new@y")] "id1"
      (by simp) rfl).2 mailRec1 rfl).1

/-- C7 (code evaluation): getLastSyncTimestamp passes the synced-status
filter to find as the whole options object, whose query property is
absent, so the scan returns every record; on a store holding a modified
record with last-sync 2000 and a synced record with last-sync 1000 the
code returns the 2000 stamp of the modified record, while the claim's
maximum over synced records is the 1000 stamp. -/
theorem c7_watermark_ignores_filter :
    getLastSyncTimestamp sctxDef [modRec, syncedRec] = .ok (.vDate (some 2000)) ∧
    objGet modRec "_syncStatus" = .vStr "modified" ∧
    objGet syncedRec "_syncStatus" = .vStr "synced" ∧
    objGet syncedRec "_lastSync" = .vDate (some 1000) ∧
    JSVal.vDate (some 2000) ≠ .vDate (some 1000) :=
  ⟨rfl, rfl, rfl, rfl, by simp⟩

end Iris
